import Mathlib

/-!
Verification of the topic-selection core of the Anna-University-QnA exam
generator.

The development shallowly embeds the selection pipeline of
`src/random_logic.py` (input parsing and validation, the difficulty to
Bloom's-level mapping, topic collection over the syllabus Topic Store,
the random selection round and the fallback cascade, and the output
formatting), the count-handling post-processing of
`src/classify_topic.py`, and the per-topic batch loop of
`src/create_questions.py`.

External effects are represented by explicit parameters:
* `shuffles : Nat → List String → List String` stands for the successive
  calls to the in-place shuffle of the global random generator; theorems
  assume only that each call returns a permutation of its input.
* `pySetList : List String → List String` stands for the conversion of a
  list to a set and back (`list(set(xs))`), whose iteration order is
  implementation defined; theorems assume only that the result is
  duplicate-free and has the same members as the input.
* The large-language-model and vector-search collaborators are modelled
  as `Except`-valued oracles, since they are external managed services.
-/

set_option maxHeartbeats 1000000

/-! ## Data model: the syllabus Topic Store

The store is the JSON value produced by `process_syllabus_to_topics`:
a list of units, each carrying its `unit_number` and a dictionary from
Bloom's-level name to the list of topic titles.  The dictionary is
modelled as an association list with first-match lookup. -/

/-- One unit of the Topic Store: `{"unit_number": n, "topics": {...}}`. -/
structure SyllabusUnit where
  unit_number : Int
  topics : List (String × List String)
deriving DecidableEq

/-- The Topic Store: `{"units": [...]}`. -/
structure Syllabus where
  units : List SyllabusUnit
deriving DecidableEq

/-- Python `d.get(k, [])` on the per-unit topics dictionary. -/
def dictGet (d : List (String × List String)) (k : String) : List String :=
  match d.find? (fun p => p.1 == k) with
  | some p => p.2
  | none => []

/-! ## Python numeric-string parsing

`generate_random_topics` and `classify_topics_to_question_types` both
parse the `question_counts` argument with
`[int(x) for x in question_counts.split(',')]`, treating any `ValueError`
as an invalid-format failure.  We embed `str.split(',')` and `int(...)`
on the character list underlying the string.  (`int` additionally accepts
underscore digit separators and non-ASCII decimal digits; those literal
forms play no role in any claim and are rejected here.) -/

/-- Whitespace stripped by Python `int` around a numeric literal. -/
def pyIsSpace (c : Char) : Bool :=
  c == ' ' || c == '\t' || c == '\n' || c == '\r'

/-- Accumulate a decimal value over a digit list (most significant first). -/
def digitsVal : List Char → Nat → Nat
  | [], acc => acc
  | c :: cs, acc => digitsVal cs (acc * 10 + (c.toNat - 48))

/-- Python `int(s)` restricted to ASCII decimal literals: strip
whitespace, allow one sign, then require a non-empty digit run. -/
def pyInt (s : String) : Option Int :=
  let stripped := (s.data.dropWhile pyIsSpace).reverse.dropWhile pyIsSpace |>.reverse
  let signedDigits : Bool × List Char :=
    match stripped with
    | '-' :: rest => (true, rest)
    | '+' :: rest => (false, rest)
    | _ => (false, stripped)
  if signedDigits.2.isEmpty then none
  else if signedDigits.2.all Char.isDigit then
    let v : Int := Int.ofNat (digitsVal signedDigits.2 0)
    some (if signedDigits.1 then -v else v)
  else none

/-- Python `s.split(',')`: split on every comma, keeping empty pieces. -/
def splitCommaAux : List Char → List Char → List String
  | [], cur => [String.mk cur.reverse]
  | c :: cs, cur =>
    if c == ',' then String.mk cur.reverse :: splitCommaAux cs []
    else splitCommaAux cs (c :: cur)

/-- Python `s.split(',')` on a string. -/
def pySplitComma (s : String) : List String :=
  splitCommaAux s.data []

/-- The counts parser shared by `generate_random_topics` and
`classify_topics_to_question_types`: every comma-separated piece must be
an integer literal, otherwise the whole parse fails (the Python code
raises and re-raises `ValueError`).  The `if not parts` branch of the
source is unreachable because `split` never returns an empty list. -/
def pyParseCounts (s : String) : Option (List Int) :=
  (pySplitComma s).mapM pyInt

/-! ## Bloom's taxonomy and the difficulty mapping -/

/-- The fixed ordered taxonomy returned by `get_blooms_hierarchy`. -/
def get_blooms_hierarchy : List String :=
  ["Remembering", "Understanding", "Applying", "Analyzing", "Evaluating", "Creating"]

/-- The fixed `blooms_map` dictionary of `map_difficulty_to_blooms`. -/
def blooms_map (difficulty : String) : Option (List String) :=
  if difficulty == "easy" then some ["Remembering", "Understanding"]
  else if difficulty == "medium" then some ["Applying", "Analyzing"]
  else if difficulty == "hard" then some ["Evaluating", "Creating"]
  else none

/-- The accumulation loop of `map_difficulty_to_blooms`: extend
`blooms_levels` with the mapped pair of each difficulty, failing on a
difficulty outside the map. -/
def mapDiffGo : List String → List String → Except String (List String)
  | [], acc => .ok acc
  | d :: ds, acc =>
    match blooms_map d with
    | none => .error ("Invalid difficulty level: " ++ d)
    | some ls => mapDiffGo ds (acc ++ ls)

/-- `map_difficulty_to_blooms`: accumulate the mapped levels, then apply
`list(set(...))`, represented by the order oracle `pySetList`. -/
def map_difficulty_to_blooms (pySetList : List String → List String)
    (difficulties : List String) : Except String (List String) :=
  match mapDiffGo difficulties [] with
  | .error e => .error e
  | .ok blooms_levels => .ok (pySetList blooms_levels)

/-- `fallback_blooms`: the taxonomy prefix strictly before the
lowest-ranked currently active level (`full_hierarchy[:min_index]`). -/
def fallback_blooms (current_blooms : List String) : List String :=
  let full_hierarchy := get_blooms_hierarchy
  let current_indices :=
    (current_blooms.filter (fun b => full_hierarchy.contains b)).map
      (fun b => full_hierarchy.indexOf b)
  let min_index :=
    match current_indices.min? with
    | some m => m
    | none => 0
  full_hierarchy.take min_index

/-- Observation used in the statements: the `min_index` value computed
inside `fallback_blooms` (0 when no active level lies in the taxonomy). -/
def minIdx (blooms : List String) : Nat :=
  match ((blooms.filter (fun b => get_blooms_hierarchy.contains b)).map
      (fun b => get_blooms_hierarchy.indexOf b)).min? with
  | some m => m
  | none => 0

/-! ## Topic collection -/

/-- The composite key `f"Unit {n} - {topic} ({level})"`. -/
def compositeKey (unit_number : Int) (topic level : String) : String :=
  "Unit " ++ toString unit_number ++ " - " ++ topic ++ " (" ++ level ++ ")"

/-- Innermost loop of `collect_topics`: append the keys of one level of
one unit that are not yet in `used_topics`. -/
def collectTopicsLevel (unit_number : Int) (unitTopics : List (String × List String))
    (used_topics : List String) (level : String) (acc : List String) : List String :=
  (dictGet unitTopics level).foldl
    (fun found topic =>
      let key := compositeKey unit_number topic level
      if used_topics.contains key then found else found ++ [key])
    acc

/-- Per-unit body of `collect_topics`: units outside the requested set
contribute nothing; otherwise iterate the levels in the given order. -/
def collectTopicsUnit (u : SyllabusUnit) (units : List Int) (used_topics : List String)
    (blooms_levels : List String) (acc : List String) : List String :=
  if units.contains u.unit_number then
    blooms_levels.foldl
      (fun found level => collectTopicsLevel u.unit_number u.topics used_topics level found)
      acc
  else acc

/-- `collect_topics`: iterate the store's unit list in order, appending
the eligible composite keys. -/
def collect_topics (syl : Syllabus) (units : List Int) (used_topics : List String)
    (blooms_levels : List String) : List String :=
  syl.units.foldl (fun found u => collectTopicsUnit u units used_topics blooms_levels found) []

/-- Canonical form of the collection order: a flat map over the store's
units, then over the given levels, then over each topic list, keeping
keys not yet used.  `collect_topics` is proved equal to this form. -/
def collectSpec (syl : Syllabus) (units : List Int) (used_topics : List String)
    (blooms_levels : List String) : List String :=
  syl.units.flatMap (fun u =>
    if units.contains u.unit_number then
      blooms_levels.flatMap (fun level =>
        (dictGet u.topics level).filterMap (fun topic =>
          let key := compositeKey u.unit_number topic level
          if used_topics.contains key then none else some key))
    else [])

/-- Observation for the iteration-order claim: the unit number emitted
with each collected key, in collection order. -/
def collectUnitsTrace (syl : Syllabus) (units : List Int) (used_topics : List String)
    (blooms_levels : List String) : List Int :=
  syl.units.flatMap (fun u =>
    if units.contains u.unit_number then
      blooms_levels.flatMap (fun level =>
        (dictGet u.topics level).filterMap (fun topic =>
          if used_topics.contains (compositeKey u.unit_number topic level) then none
          else some u.unit_number))
    else [])

/-! ## The selection loop -/

/-- The run-local selection state: the `used_topics` set (as a list with
membership testing) and the ordered `selected_topics` list. -/
structure SelState where
  used_topics : List String
  selected_topics : List String
deriving DecidableEq

/-- The inner `for t in topics` loop of a fallback round: stop once
`num_questions` topics are selected, append topics not yet used. -/
def appendRound (num_questions : Nat) : List String → SelState → SelState
  | [], st => st
  | t :: ts, st =>
    if st.selected_topics.length ≥ num_questions then st
    else if st.used_topics.contains t then appendRound num_questions ts st
    else appendRound num_questions ts ⟨t :: st.used_topics, st.selected_topics ++ [t]⟩

/-- The `while len(selected_topics) < num_questions` fallback loop.
The Python loop has no fuel; the fuel argument is only a recursion
bound, and the termination theorem shows any fuel above `minIdx` of the
active levels gives the same result (the caller passes 6, which always
suffices).  `round` numbers the successive shuffle invocations. -/
def selLoop (shuffles : Nat → List String → List String) (syl : Syllabus)
    (units : List Int) (num_questions : Nat) :
    Nat → Nat → List String → SelState → SelState
  | 0, _, _, st => st
  | fuel + 1, round, primary_blooms, st =>
    if st.selected_topics.length < num_questions then
      let fallback_levels := fallback_blooms primary_blooms
      if fallback_levels.isEmpty then st
      else
        let topics := shuffles round (collect_topics syl units st.used_topics fallback_levels)
        selLoop shuffles syl units num_questions fuel (round + 1) fallback_levels
          (appendRound num_questions topics st)
    else st

/-- The selection pipeline of `generate_random_topics` up to (and not
including) the final formatting: parse and validate the inputs, map the
difficulties, run the first collection round and the fallback loop, and
return the requested total together with the selected key list.
Error strings keep the source messages with quote marks elided. -/
def runSelection (shuffles : Nat → List String → List String)
    (pySetList : List String → List String) (question_counts : String)
    (units : List Int) (difficulties : List String) (syl : Syllabus) :
    Except String (Nat × List String) :=
  match pyParseCounts question_counts with
  | none => .error "Invalid question counts format. Use comma-separated integers"
  | some parts =>
    let num_questions : Int := parts.sum
    if num_questions ≤ 0 then .error "Total number of questions must be positive"
    else if difficulties.isEmpty
        || !(difficulties.all fun d => ["easy", "medium", "hard"].contains d) then
      .error "Difficulty levels must be easy, medium, or hard"
    else if units.isEmpty || !(units.all fun u => decide (1 ≤ u ∧ u ≤ 5)) then
      .error "Units must be between 1 and 5"
    else
      match map_difficulty_to_blooms pySetList difficulties with
      | .error e => .error e
      | .ok primary_blooms =>
        let n := num_questions.toNat
        let topics := shuffles 0 (collect_topics syl units [] primary_blooms)
        let selected := topics.take n
        let final := selLoop shuffles syl units n 6 1 primary_blooms ⟨selected, selected⟩
        .ok (n, final.selected_topics)

/-- The output lines: the header, then the selected topics numbered
from 1 (`enumerate(selected_topics[:num_questions], 1)`). -/
def formatLines (selected : List String) : List String :=
  "Selected Topics:" :: selected.enum.map (fun p => toString (p.1 + 1) ++ ". " ++ p.2)

/-- `generate_random_topics`: the selection pipeline followed by the
empty-result check and the formatting of the output string. -/
def generate_random_topics (shuffles : Nat → List String → List String)
    (pySetList : List String → List String) (question_counts : String)
    (units : List Int) (difficulties : List String) (syl : Syllabus) :
    Except String String :=
  match runSelection shuffles pySetList question_counts units difficulties syl with
  | .error e => .error e
  | .ok (n, selected_topics) =>
    if selected_topics.isEmpty then .error "No topics available even after fallback"
    else .ok (String.intercalate "\n" (formatLines (selected_topics.take n)))

/-! ## Observations used by the statements -/

/-- The raw mapped Bloom's levels of a difficulty list, before the
`list(set(...))` conversion: the concatenation of the mapped pairs. -/
def primaryRaw (difficulties : List String) : List String :=
  difficulties.flatMap (fun d => (blooms_map d).getD [])

/-- A canonical duplicate-free representative of the initial Bloom's
level set (the oracle `pySetList` may present the same set in any
order). -/
def canonPrimary (difficulties : List String) : List String :=
  (primaryRaw difficulties).dedup

/-- The levels eligible over a whole run: the initial levels plus the
fallback cascade (one prefix step; its own fallback is empty). -/
def poolLevels (difficulties : List String) : List String :=
  canonPrimary difficulties ++ fallback_blooms (canonPrimary difficulties)

/-- The eligible pool as a list: every composite key reachable at the
requested units under the initial or fallback levels. -/
def eligiblePoolList (syl : Syllabus) (units : List Int) (difficulties : List String) :
    List String :=
  collect_topics syl units [] (poolLevels difficulties)

/-- The eligible pool as a finite set of distinct composite keys. -/
def eligiblePool (syl : Syllabus) (units : List Int) (difficulties : List String) :
    Finset String :=
  (eligiblePoolList syl units difficulties).toFinset

/-- The number of distinct not-yet-used strings in a list, counted the
way `appendRound` discovers them. -/
def newDistinct : List String → List String → Nat
  | [], _ => 0
  | t :: ts, used =>
    if used.contains t then newDistinct ts used else newDistinct ts (t :: used) + 1

/-! ## Store-threaded variant of the selection pipeline

To state the frame property (the Topic Store is never mutated) the
pipeline is repeated in state-passing style: the store is an explicit
state value handed to every operation that touches it, exactly as the
Python heap hands `syllabus_json` to every statement.  A mutation in the
source would show up here as a modified store being returned. -/

/-- Reading `syllabus_json['units']` returns the unit list and leaves
the store as it was. -/
def readUnits (syl : Syllabus) : List SyllabusUnit × Syllabus :=
  (syl.units, syl)

/-- Store-threaded `collect_topics`: the single store access is the read
of the unit list. -/
def collect_topicsSt (syl : Syllabus) (units : List Int) (used_topics : List String)
    (blooms_levels : List String) : List String × Syllabus :=
  let read := readUnits syl
  (read.1.foldl (fun found u => collectTopicsUnit u units used_topics blooms_levels found) [],
    read.2)

/-- Store-threaded fallback loop: each round re-reads the store through
`collect_topicsSt` and threads it on. -/
def selLoopSt (shuffles : Nat → List String → List String) (units : List Int)
    (num_questions : Nat) :
    Nat → Nat → List String → SelState → Syllabus → SelState × Syllabus
  | 0, _, _, st, syl => (st, syl)
  | fuel + 1, round, primary_blooms, st, syl =>
    if st.selected_topics.length < num_questions then
      let fallback_levels := fallback_blooms primary_blooms
      if fallback_levels.isEmpty then (st, syl)
      else
        let collected := collect_topicsSt syl units st.used_topics fallback_levels
        let topics := shuffles round collected.1
        selLoopSt shuffles units num_questions fuel (round + 1) fallback_levels
          (appendRound num_questions topics st) collected.2
    else (st, syl)

/-- Store-threaded selection pipeline. -/
def runSelectionSt (shuffles : Nat → List String → List String)
    (pySetList : List String → List String) (question_counts : String)
    (units : List Int) (difficulties : List String) (syl : Syllabus) :
    Except String (Nat × List String) × Syllabus :=
  match pyParseCounts question_counts with
  | none => (.error "Invalid question counts format. Use comma-separated integers", syl)
  | some parts =>
    let num_questions : Int := parts.sum
    if num_questions ≤ 0 then (.error "Total number of questions must be positive", syl)
    else if difficulties.isEmpty
        || !(difficulties.all fun d => ["easy", "medium", "hard"].contains d) then
      (.error "Difficulty levels must be easy, medium, or hard", syl)
    else if units.isEmpty || !(units.all fun u => decide (1 ≤ u ∧ u ≤ 5)) then
      (.error "Units must be between 1 and 5", syl)
    else
      match map_difficulty_to_blooms pySetList difficulties with
      | .error e => (.error e, syl)
      | .ok primary_blooms =>
        let n := num_questions.toNat
        let collected := collect_topicsSt syl units [] primary_blooms
        let topics := shuffles 0 collected.1
        let selected := topics.take n
        let final := selLoopSt shuffles units n 6 1 primary_blooms ⟨selected, selected⟩ collected.2
        (.ok (n, final.1.selected_topics), final.2)

/-! ## classify_topics_to_question_types

The classifier delegates the assignment itself to an external reasoning
service; the code around the call parses the requested counts, derives
the format names, builds the request dictionary, and then parses and
returns whatever the service produced.  The service invocation together
with the code-fence stripping and JSON decoding of its free-text reply
is the external boundary, modelled as an `Except`-valued input: `.ok`
carries the decoded assignment list, `.error` any invoke/decode
failure. -/

/-- One entry of the classifier's returned JSON array. -/
structure Assignment where
  topic : String
  question_type : String
deriving DecidableEq

/-- Format names derived from the number of counts: three counts mean
the fixed MCQ/Short/Long names, otherwise mark-based names. -/
def question_types_for (counts : List Int) : List String :=
  if counts.length = 3 then ["MCQs", "Short Answer", "Long Answer"]
  else counts.map (fun marks => toString marks ++ " Marks")

/-- The `question_counts_dict` sent to the service: format names zipped
with the requested counts. -/
def question_counts_dict (counts : List Int) : List (String × Int) :=
  (question_types_for counts).zip counts

/-- Lookup in `question_counts_dict` (a later duplicate key would
overwrite an earlier one, as in a Python dict comprehension). -/
def requestedCount (counts : List Int) (fmt : String) : Option Int :=
  ((question_counts_dict counts).reverse.find? (fun p => p.1 == fmt)).map (fun p => p.2)

/-- The number of entries of an assignment carrying a given format. -/
def countType (assignment : List Assignment) (fmt : String) : Nat :=
  (assignment.filter (fun a => a.question_type == fmt)).length

/-- `classify_topics_to_question_types`: parse the counts (failing on a
bad format), then return the service's decoded assignment unchanged; a
service or decode failure is wrapped in the classifying-error message.
No comparison of the returned per-format counts against the request
appears between the decode and the return. -/
def classify_topics_to_question_types (llmResult : Except String (List Assignment))
    (question_counts : String) : Except String (List Assignment) :=
  match pyParseCounts question_counts with
  | none => .error "Invalid question counts format. Use comma-separated integers"
  | some _counts =>
    match llmResult with
    | .error e => .error ("Error classifying topics: " ++ e)
    | .ok output_json => .ok output_json

/-! ## generate_questions_from_topics

Document retrieval (`max_marginal_relevance_search` plus the joining of
the page contents) and question generation (`chain.invoke` plus
`strip()`) are external collaborators, modelled as `Except`-valued
oracles taking the query (and the combined documents). -/

/-- One decoded entry of `topics_json`; `dict.get` yields `None` for a
missing field. -/
structure TopicEntry where
  topic : Option String
  question_type : Option String
deriving DecidableEq

/-- Python truthiness of `topic` / `question_type`: `None` and the empty
string are falsy. -/
def pyFalsy : Option String → Bool
  | none => true
  | some s => s.isEmpty

/-- How an optional string renders inside an f-string (`None` prints as
the word None). -/
def pyShow : Option String → String
  | none => "None"
  | some s => s

/-- The body of the per-topic `try`/`except`: validate the entry, form
the query, retrieve, generate; any failure becomes the inline error
placeholder mentioning the topic. -/
def processEntry (retrieveDocs : String → Except String String)
    (generateQ : String → String → Except String String) (entry : TopicEntry) : String :=
  if pyFalsy entry.topic || pyFalsy entry.question_type then
    "Error generating question for " ++ pyShow entry.topic ++
      ": Each topic entry must have topic and question_type"
  else
    let topic := pyShow entry.topic
    let query := topic ++ " question_type: " ++ pyShow entry.question_type
    match retrieveDocs query with
    | .error e => "Error generating question for " ++ topic ++ ": " ++ e
    | .ok final_docs =>
      match generateQ query final_docs with
      | .error e => "Error generating question for " ++ topic ++ ": " ++ e
      | .ok question => question

/-- The `for topic_entry in topics` loop: one appended result per
entry. -/
def questionsLoop (retrieveDocs : String → Except String String)
    (generateQ : String → String → Except String String) : List TopicEntry → List String
  | [] => []
  | entry :: rest =>
    processEntry retrieveDocs generateQ entry :: questionsLoop retrieveDocs generateQ rest

/-- `generate_questions_from_topics` after JSON decoding: reject an
empty topic list, then run the per-topic loop. -/
def generate_questions_from_topics (retrieveDocs : String → Except String String)
    (generateQ : String → String → Except String String) (topics : List TopicEntry) :
    Except String (List String) :=
  if topics.isEmpty then .error "Topics JSON must be a non-empty list"
  else .ok (questionsLoop retrieveDocs generateQ topics)

/-! ## Lemmas: collection as a flat map, and membership -/

/-- A fold that appends the optional image of each element equals the
accumulator followed by the filter-map of the list. -/
theorem foldl_append_filterMap {α β : Type} (g : α → Option β) (f : List β → α → List β)
    (hf : ∀ acc a, f acc a = acc ++ (g a).toList) :
    ∀ (ts : List α) (acc : List β), ts.foldl f acc = acc ++ ts.filterMap g := by
  intro ts
  induction ts with
  | nil => intro acc; simp
  | cons t ts ih =>
    intro acc
    rw [List.foldl_cons, hf, ih, List.filterMap_cons]
    cases g t <;> simp

/-- A fold that appends the image list of each element equals the
accumulator followed by the flat map of the list. -/
theorem foldl_append_flatMap {α β : Type} (g : α → List β) (f : List β → α → List β)
    (hf : ∀ acc a, f acc a = acc ++ g a) :
    ∀ (ts : List α) (acc : List β), ts.foldl f acc = acc ++ ts.flatMap g := by
  intro ts
  induction ts with
  | nil => intro acc; simp
  | cons t ts ih =>
    intro acc
    rw [List.foldl_cons, hf, ih, List.flatMap_cons, List.append_assoc]

/-- The inner level loop appends exactly the eligible keys of that
level, in the order of the topic list. -/
theorem collectTopicsLevel_eq (unit_number : Int) (d : List (String × List String))
    (used : List String) (level : String) (acc : List String) :
    collectTopicsLevel unit_number d used level acc =
      acc ++ (dictGet d level).filterMap (fun topic =>
        let key := compositeKey unit_number topic level
        if used.contains key then none else some key) := by
  unfold collectTopicsLevel
  refine foldl_append_filterMap _ _ ?_ _ _
  intro acc topic
  by_cases h : compositeKey unit_number topic level ∈ used <;> simp [h]

/-- The per-unit body appends the unit's eligible keys, iterating the
levels in the given order. -/
theorem collectTopicsUnit_eq (u : SyllabusUnit) (units : List Int) (used : List String)
    (levels : List String) (acc : List String) :
    collectTopicsUnit u units used levels acc =
      acc ++ (if units.contains u.unit_number then
        levels.flatMap (fun level =>
          (dictGet u.topics level).filterMap (fun topic =>
            let key := compositeKey u.unit_number topic level
            if used.contains key then none else some key))
      else []) := by
  unfold collectTopicsUnit
  by_cases h : units.contains u.unit_number
  · rw [if_pos h, if_pos h]
    refine foldl_append_flatMap _ _ ?_ _ _
    intro acc level
    exact collectTopicsLevel_eq u.unit_number u.topics used level acc
  · rw [if_neg h, if_neg h, List.append_nil]

/-- `collect_topics` equals its canonical flat-map form: the store's
units in store order, the levels in argument order, each topic list in
store order. -/
theorem collect_topics_eq_spec (syl : Syllabus) (units : List Int) (used : List String)
    (levels : List String) :
    collect_topics syl units used levels = collectSpec syl units used levels := by
  unfold collect_topics collectSpec
  rw [foldl_append_flatMap _ _ (fun acc u => collectTopicsUnit_eq u units used levels acc),
    List.nil_append]

/-- Membership in the collected list: a key is collected exactly when it
is not yet used and arises from an in-scope unit, an in-scope level and
a topic of the store. -/
theorem mem_collect_topics {syl : Syllabus} {units : List Int} {used : List String}
    {levels : List String} {k : String} :
    k ∈ collect_topics syl units used levels ↔
      k ∉ used ∧ ∃ u ∈ syl.units, u.unit_number ∈ units ∧
        ∃ level ∈ levels, ∃ topic ∈ dictGet u.topics level,
          k = compositeKey u.unit_number topic level := by
  rw [collect_topics_eq_spec]
  unfold collectSpec
  simp only [List.mem_flatMap]
  constructor
  · rintro ⟨u, hu, hk⟩
    by_cases hc : u.unit_number ∈ units
    · rw [if_pos (by simpa using hc)] at hk
      simp only [List.mem_flatMap, List.mem_filterMap] at hk
      obtain ⟨level, hlevel, topic, htopic, hkey⟩ := hk
      by_cases hused : compositeKey u.unit_number topic level ∈ used
      · rw [if_pos (by simpa using hused)] at hkey
        exact absurd hkey (by simp)
      · rw [if_neg (by simpa using hused)] at hkey
        obtain rfl : compositeKey u.unit_number topic level = k := by simpa using hkey
        exact ⟨hused, u, hu, hc, level, hlevel, topic, htopic, rfl⟩
    · rw [if_neg (by simpa using hc)] at hk
      simp at hk
  · rintro ⟨hused, u, hu, hunit, level, hlevel, topic, htopic, rfl⟩
    refine ⟨u, hu, ?_⟩
    rw [if_pos (by simpa using hunit)]
    simp only [List.mem_flatMap, List.mem_filterMap]
    exact ⟨level, hlevel, topic, htopic, by simp [hused]⟩

/-! ## Lemmas: the fallback cascade -/

/-- The fixed taxonomy has no repeated level name. -/
theorem blooms_hierarchy_nodup : get_blooms_hierarchy.Nodup := by decide

/-- `fallback_blooms` is the taxonomy prefix of length `minIdx`. -/
theorem fallback_blooms_eq_take (l : List String) :
    fallback_blooms l = get_blooms_hierarchy.take (minIdx l) := rfl

/-- `List.min?` on naturals, characterised by membership and
minimality. -/
theorem nat_min?_eq_some_iff {xs : List Nat} {m : Nat} :
    xs.min? = some m ↔ m ∈ xs ∧ ∀ b ∈ xs, m ≤ b :=
  List.min?_eq_some_iff Nat.le_refl
    (fun a b => (Nat.le_total a b).imp Nat.min_eq_left Nat.min_eq_right)
    (fun _ _ _ => Nat.le_min)

/-- `minIdx` only depends on which levels are present. -/
theorem minIdx_congr {l l' : List String} (h : ∀ x, x ∈ l ↔ x ∈ l') :
    minIdx l = minIdx l' := by
  have hiff : ∀ i : Nat,
      (i ∈ (l.filter (fun b => get_blooms_hierarchy.contains b)).map
          (fun b => get_blooms_hierarchy.indexOf b)) ↔
      (i ∈ (l'.filter (fun b => get_blooms_hierarchy.contains b)).map
          (fun b => get_blooms_hierarchy.indexOf b)) := by
    intro i
    simp [List.mem_map, List.mem_filter, h]
  have hmin :
      ((l.filter (fun b => get_blooms_hierarchy.contains b)).map
          (fun b => get_blooms_hierarchy.indexOf b)).min? =
      ((l'.filter (fun b => get_blooms_hierarchy.contains b)).map
          (fun b => get_blooms_hierarchy.indexOf b)).min? := by
    rcases hA : ((l.filter (fun b => get_blooms_hierarchy.contains b)).map
        (fun b => get_blooms_hierarchy.indexOf b)).min? with _ | m
    · rcases hB : ((l'.filter (fun b => get_blooms_hierarchy.contains b)).map
          (fun b => get_blooms_hierarchy.indexOf b)).min? with _ | m
      · rfl
      · exfalso
        have hmem := (nat_min?_eq_some_iff.mp hB).1
        have hmem' := (hiff m).2 hmem
        have hne := List.ne_nil_of_mem hmem'
        rw [List.min?_eq_none_iff] at hA
        exact hne hA
    · have hm := nat_min?_eq_some_iff.mp hA
      exact (nat_min?_eq_some_iff.mpr
        ⟨(hiff m).1 hm.1, fun b hb => hm.2 b ((hiff b).2 hb)⟩).symm
  unfold minIdx
  rw [hmin]

/-- The `min_index` is always below the taxonomy length. -/
theorem minIdx_lt_six (l : List String) : minIdx l < 6 := by
  unfold minIdx
  rcases h : ((l.filter (fun b => get_blooms_hierarchy.contains b)).map
      (fun b => get_blooms_hierarchy.indexOf b)).min? with _ | m
  · decide
  · have hm := (nat_min?_eq_some_iff.mp h).1
    simp only [List.mem_map, List.mem_filter] at hm
    obtain ⟨b, ⟨_, hcont⟩, rfl⟩ := hm
    have hbmem : b ∈ get_blooms_hierarchy := by simpa using hcont
    have hlt := List.indexOf_lt_length.mpr hbmem
    simpa [get_blooms_hierarchy] using hlt

/-- The fallback set is non-empty exactly when some active level sits
strictly above the bottom of the taxonomy. -/
theorem fallback_ne_nil_iff (l : List String) :
    fallback_blooms l ≠ [] ↔ 1 ≤ minIdx l := by
  rw [fallback_blooms_eq_take]
  rw [ne_eq, List.take_eq_nil_iff]
  constructor
  · intro h
    have h0 : minIdx l ≠ 0 := fun hc => h (Or.inl hc)
    omega
  · intro h hc
    rcases hc with hc | hc
    · omega
    · exact absurd hc (by decide)

/-- Any non-empty taxonomy prefix contains the bottom level. -/
theorem remembering_mem_take {m : Nat} (h : 1 ≤ m) :
    "Remembering" ∈ get_blooms_hierarchy.take m := by
  rcases m with _ | m
  · omega
  · simp [get_blooms_hierarchy, List.take_succ_cons]

/-- After a non-empty fallback step the minimum index is the bottom of
the taxonomy. -/
theorem minIdx_fallback_eq_zero {l : List String} (hne : fallback_blooms l ≠ []) :
    minIdx (fallback_blooms l) = 0 := by
  have h1 : 1 ≤ minIdx l := (fallback_ne_nil_iff l).mp hne
  have hRem : "Remembering" ∈ fallback_blooms l := by
    rw [fallback_blooms_eq_take]
    exact remembering_mem_take h1
  have hmin : (((fallback_blooms l).filter (fun b => get_blooms_hierarchy.contains b)).map
      (fun b => get_blooms_hierarchy.indexOf b)).min? = some 0 := by
    refine nat_min?_eq_some_iff.mpr ⟨?_, fun b _ => Nat.zero_le b⟩
    simp only [List.mem_map, List.mem_filter]
    exact ⟨"Remembering", ⟨hRem, by decide⟩, by decide⟩
  unfold minIdx
  rw [hmin]

/-- The fallback of a non-empty fallback set is empty: the cascade ends
after at most one productive fallback round. -/
theorem fallback_fallback_nil {l : List String} (hne : fallback_blooms l ≠ []) :
    fallback_blooms (fallback_blooms l) = [] := by
  rw [fallback_blooms_eq_take (fallback_blooms l), minIdx_fallback_eq_zero hne]
  simp

/-- Each productive fallback round strictly decreases the minimum
taxonomy index of the active level set. -/
theorem minIdx_fallback_lt {l : List String} (hne : fallback_blooms l ≠ []) :
    minIdx (fallback_blooms l) < minIdx l := by
  rw [minIdx_fallback_eq_zero hne]
  exact (fallback_ne_nil_iff l).mp hne

/-- Membership in a prefix of a duplicate-free list is membership with
index below the cut. -/
theorem mem_take_iff_indexOf_lt {α : Type} [DecidableEq α] {h : List α} (hn : h.Nodup)
    (m : Nat) (a : α) : a ∈ h.take m ↔ a ∈ h ∧ List.indexOf a h < m := by
  constructor
  · intro ha
    have hmem : a ∈ h := (List.take_sublist m h).subset ha
    obtain ⟨i, hi, hget⟩ := List.mem_take_iff_getElem.mp ha
    have hi2 := Nat.lt_min.mp hi
    have hidx : List.indexOf a h = i := by
      rw [← hget]
      exact List.indexOf_getElem hn i hi2.2
    exact ⟨hmem, by omega⟩
  · rintro ⟨hmem, hlt⟩
    have hlen := List.indexOf_lt_length.mpr hmem
    exact List.mem_take_iff_getElem.mpr
      ⟨List.indexOf a h, Nat.lt_min.mpr ⟨hlt, hlen⟩, List.getElem_indexOf hlen⟩

/-! ## Lemmas: the valid-input path -/

/-- Valid difficulty labels hit the `blooms_map` dictionary. -/
theorem blooms_map_of_valid {d : String}
    (h : d ∈ (["easy", "medium", "hard"] : List String)) :
    blooms_map d = some ((blooms_map d).getD []) := by
  simp only [List.mem_cons, List.not_mem_nil, or_false] at h
  rcases h with rfl | rfl | rfl <;> rfl

/-- On valid difficulty lists the mapping loop succeeds and accumulates
exactly the concatenation of the mapped pairs. -/
theorem mapDiffGo_ok {ds : List String}
    (h : ∀ d ∈ ds, d ∈ (["easy", "medium", "hard"] : List String)) :
    ∀ acc, mapDiffGo ds acc = .ok (acc ++ primaryRaw ds) := by
  induction ds with
  | nil =>
    intro acc
    simp only [mapDiffGo, primaryRaw, List.flatMap_nil, List.append_nil]
  | cons d ds ih =>
    intro acc
    obtain ⟨ls, hls⟩ : ∃ ls, blooms_map d = some ls :=
      ⟨_, blooms_map_of_valid (h d (by simp))⟩
    simp only [mapDiffGo, hls]
    rw [ih (fun x hx => h x (by simp [hx])) (acc ++ ls)]
    simp [primaryRaw, List.flatMap_cons, List.append_assoc, hls]

/-- Every level produced by the difficulty mapping lies in the
taxonomy. -/
theorem primaryRaw_subset_hierarchy {ds : List String}
    (h : ∀ d ∈ ds, d ∈ (["easy", "medium", "hard"] : List String)) :
    ∀ x ∈ primaryRaw ds, x ∈ get_blooms_hierarchy := by
  intro x hx
  simp only [primaryRaw, List.mem_flatMap] at hx
  obtain ⟨d, hd, hxd⟩ := hx
  have hdv := h d hd
  simp only [List.mem_cons, List.not_mem_nil, or_false] at hdv
  rcases hdv with rfl | rfl | rfl <;>
    simp [blooms_map] at hxd <;>
    rcases hxd with rfl | rfl <;> decide

/-- Under valid inputs, `runSelection` takes its success path: the
requested total is the parsed sum, the initial round draws from the
mapped primary levels, and the loop starts with fuel 6 at round 1. -/
theorem runSelection_eq_ok (sh : Nat → List String → List String)
    (pySet : List String → List String) (qc : String) (units : List Int)
    (diffs : List String) (syl : Syllabus) {parts : List Int}
    (Hparse : pyParseCounts qc = some parts) (Hpos : 0 < parts.sum)
    (Hd : diffs ≠ []) (Hdv : ∀ d ∈ diffs, d ∈ (["easy", "medium", "hard"] : List String))
    (Hu : units ≠ []) (Huv : ∀ u ∈ units, 1 ≤ u ∧ u ≤ 5) :
    runSelection sh pySet qc units diffs syl =
      .ok (parts.sum.toNat,
        (selLoop sh syl units parts.sum.toNat 6 1 (pySet (primaryRaw diffs))
          ⟨(sh 0 (collect_topics syl units [] (pySet (primaryRaw diffs)))).take parts.sum.toNat,
            (sh 0 (collect_topics syl units [] (pySet (primaryRaw diffs)))).take
              parts.sum.toNat⟩).selected_topics) := by
  have hsum : ¬ parts.sum ≤ 0 := by omega
  have halld : (diffs.all fun d => ["easy", "medium", "hard"].contains d) = true := by
    rw [List.all_eq_true]
    intro d hd
    simpa using Hdv d hd
  have hemptyd : diffs.isEmpty = false := by simp [Hd]
  have hdiff : (diffs.isEmpty
      || !(diffs.all fun d => ["easy", "medium", "hard"].contains d)) = false := by
    rw [halld, hemptyd]
    rfl
  have hallu : (units.all fun u => decide (1 ≤ u ∧ u ≤ 5)) = true := by
    rw [List.all_eq_true]
    intro u hu
    simpa using Huv u hu
  have hemptyu : units.isEmpty = false := by simp [Hu]
  have hunits : (units.isEmpty || !(units.all fun u => decide (1 ≤ u ∧ u ≤ 5))) = false := by
    rw [hallu, hemptyu]
    rfl
  unfold runSelection
  rw [Hparse]
  dsimp only
  rw [if_neg hsum, hdiff, hunits]
  simp only [Bool.false_eq_true, if_false]
  unfold map_difficulty_to_blooms
  rw [mapDiffGo_ok Hdv []]
  simp

/-! ## Lemmas: the fallback loop -/

/-- The result of the fallback loop does not depend on the fuel, as
long as the fuel exceeds the minimum taxonomy index of the active
levels: the Python `while` loop needs no bound at all. -/
theorem selLoop_fuel_congr (sh : Nat → List String → List String) (syl : Syllabus)
    (units : List Int) (n : Nat) :
    ∀ fuel₁ fuel₂ r p st, minIdx p < fuel₁ → minIdx p < fuel₂ →
      selLoop sh syl units n fuel₁ r p st = selLoop sh syl units n fuel₂ r p st := by
  intro fuel₁
  induction fuel₁ with
  | zero => intro fuel₂ r p st h1 _; omega
  | succ f ih =>
    intro fuel₂ r p st h1 h2
    rcases fuel₂ with _ | f₂
    · omega
    · simp only [selLoop]
      by_cases hlen : st.selected_topics.length < n
      · rw [if_pos hlen, if_pos hlen]
        by_cases hfb : (fallback_blooms p).isEmpty
        · rw [if_pos hfb, if_pos hfb]
        · rw [if_neg hfb, if_neg hfb]
          have hne : fallback_blooms p ≠ [] := by
            intro hc
            rw [hc] at hfb
            exact hfb rfl
          have h0 : minIdx (fallback_blooms p) = 0 := minIdx_fallback_eq_zero hne
          have h1' : 1 ≤ minIdx p := (fallback_ne_nil_iff p).mp hne
          exact ih _ _ _ _ (by omega) (by omega)
      · rw [if_neg hlen, if_neg hlen]

/-- Closed form of the fallback loop at fuel 6 (the value used by the
pipeline): at most one productive fallback round runs, because the
fallback of a non-empty fallback set is empty. -/
theorem selLoop_two_rounds (sh : Nat → List String → List String) (syl : Syllabus)
    (units : List Int) (n : Nat) (r : Nat) (p : List String) (st : SelState) :
    selLoop sh syl units n 6 r p st =
      if st.selected_topics.length < n then
        (if fallback_blooms p = [] then st
         else appendRound n
            (sh r (collect_topics syl units st.used_topics (fallback_blooms p))) st)
      else st := by
  show selLoop sh syl units n (5 + 1) r p st = _
  simp only [selLoop]
  by_cases hlen : st.selected_topics.length < n
  · rw [if_pos hlen, if_pos hlen]
    by_cases hfb : (fallback_blooms p).isEmpty
    · rw [if_pos hfb, if_pos (List.isEmpty_iff.mp hfb)]
    · have hne : fallback_blooms p ≠ [] := by
        intro hc
        rw [hc] at hfb
        exact hfb rfl
      rw [if_neg hfb, if_neg hne]
      show selLoop sh syl units n (4 + 1) _ _ _ = _
      simp only [selLoop]
      by_cases hlen2 : (appendRound n
          (sh r (collect_topics syl units st.used_topics (fallback_blooms p)))
            st).selected_topics.length < n
      · rw [if_pos hlen2, if_pos (by
          rw [List.isEmpty_iff]
          exact fallback_fallback_nil hne)]
      · rw [if_neg hlen2]
  · rw [if_neg hlen, if_neg hlen]

/-! ## Lemmas: the append round -/

/-- Length of the state after an append round: the round tops the
selection up with the new distinct topics of the shuffled list, capped
at the requested total. -/
theorem appendRound_length (n : Nat) :
    ∀ (ts : List String) (st : SelState), st.selected_topics.length ≤ n →
      (appendRound n ts st).selected_topics.length =
        min n (st.selected_topics.length + newDistinct ts st.used_topics) := by
  intro ts
  induction ts with
  | nil =>
    intro st h
    simp only [appendRound, newDistinct]
    omega
  | cons t ts ih =>
    intro st h
    simp only [appendRound, newDistinct]
    by_cases hge : st.selected_topics.length ≥ n
    · rw [if_pos hge]
      omega
    · rw [if_neg hge]
      by_cases hmem : st.used_topics.contains t = true
      · rw [if_pos hmem, if_pos hmem, ih st h]
      · rw [if_neg hmem, if_neg hmem]
        have hstep := ih ⟨t :: st.used_topics, st.selected_topics ++ [t]⟩
          (by simp only [List.length_append, List.length_singleton]; omega)
        simp only [List.length_append, List.length_singleton] at hstep
        rw [hstep]
        omega

/-- The append round preserves the run invariant: the selection stays
duplicate-free and the used set holds exactly the selected keys. -/
theorem appendRound_inv (n : Nat) :
    ∀ (ts : List String) (st : SelState), st.selected_topics.Nodup →
      (∀ x, x ∈ st.used_topics ↔ x ∈ st.selected_topics) →
      ((appendRound n ts st).selected_topics.Nodup ∧
        ∀ x, x ∈ (appendRound n ts st).used_topics ↔
          x ∈ (appendRound n ts st).selected_topics) := by
  intro ts
  induction ts with
  | nil =>
    intro st hnd hinv
    exact ⟨hnd, hinv⟩
  | cons t ts ih =>
    intro st hnd hinv
    simp only [appendRound]
    by_cases hge : st.selected_topics.length ≥ n
    · rw [if_pos hge]
      exact ⟨hnd, hinv⟩
    · rw [if_neg hge]
      by_cases hmem : st.used_topics.contains t = true
      · rw [if_pos hmem]
        exact ih st hnd hinv
      · rw [if_neg hmem]
        have htnotin : t ∉ st.selected_topics := by
          intro hc
          exact hmem (by simpa using (hinv t).mpr hc)
        refine ih _ ?_ ?_
        · simp [List.nodup_append, hnd, htnotin]
        · intro x
          simp only [List.mem_cons, List.mem_append, List.mem_singleton, hinv x]
          tauto

/-- When the requested total is not reached, the append round collects
every new distinct topic of its input: the selected set afterwards is
the old selected set plus the fresh part of the round's list. -/
theorem appendRound_sdiff (n : Nat) :
    ∀ (ts : List String) (st : SelState),
      (appendRound n ts st).selected_topics.length < n →
      (appendRound n ts st).selected_topics.toFinset =
        st.selected_topics.toFinset ∪ (ts.toFinset \ st.used_topics.toFinset) := by
  intro ts
  induction ts with
  | nil =>
    intro st _
    simp [appendRound]
  | cons t ts ih =>
    intro st hlen
    simp only [appendRound] at hlen ⊢
    by_cases hge : st.selected_topics.length ≥ n
    · rw [if_pos hge] at hlen ⊢
      omega
    · rw [if_neg hge] at hlen ⊢
      by_cases hmem : st.used_topics.contains t = true
      · rw [if_pos hmem] at hlen ⊢
        rw [ih st hlen]
        have htmem : t ∈ st.used_topics := by simpa using hmem
        ext x
        by_cases hxt : x = t
        · subst hxt
          simp [htmem]
        · simp only [Finset.mem_union, Finset.mem_sdiff, List.mem_toFinset, List.mem_cons]
          tauto
      · rw [if_neg hmem] at hlen ⊢
        rw [ih _ hlen]
        have htnot : t ∉ st.used_topics := by
          intro hc
          exact hmem (by simpa using hc)
        ext x
        by_cases hxt : x = t
        · subst hxt
          simp [htnot]
        · simp only [Finset.mem_union, Finset.mem_sdiff, List.mem_toFinset,
            List.mem_cons, List.mem_append, List.mem_singleton]
          tauto

/-- `newDistinct` counts the distinct fresh elements: it is the size of
the set difference between the candidates and the used set. -/
theorem newDistinct_eq_card :
    ∀ (ts used : List String), newDistinct ts used = (ts.toFinset \ used.toFinset).card := by
  intro ts
  induction ts with
  | nil =>
    intro used
    simp [newDistinct]
  | cons t ts ih =>
    intro used
    simp only [newDistinct]
    by_cases hmem : used.contains t = true
    · rw [if_pos hmem, ih]
      have htm : t ∈ used := by simpa using hmem
      congr 1
      ext x
      by_cases hxt : x = t
      · subst hxt
        simp [htm]
      · simp only [Finset.mem_sdiff, List.mem_toFinset, List.mem_cons]
        tauto
    · rw [if_neg hmem, ih (t :: used)]
      have htn : t ∉ used := by
        intro hc
        exact hmem (by simpa using hc)
      have h1 : (t :: ts).toFinset \ used.toFinset
          = insert t (ts.toFinset \ used.toFinset) := by
        ext x
        by_cases hxt : x = t
        · subst hxt
          simp [htn]
        · simp only [Finset.mem_sdiff, List.mem_toFinset, List.mem_cons, Finset.mem_insert]
          tauto
      have h2 : ts.toFinset \ (t :: used).toFinset
          = (ts.toFinset \ used.toFinset).erase t := by
        ext x
        by_cases hxt : x = t
        · subst hxt
          simp
        · simp only [Finset.mem_sdiff, List.mem_toFinset, List.mem_cons, Finset.mem_erase]
          tauto
      rw [h1, h2]
      by_cases htX : t ∈ ts.toFinset \ used.toFinset
      · rw [Finset.insert_eq_self.mpr htX]
        exact Finset.card_erase_add_one htX
      · rw [Finset.erase_eq_self.mpr htX, Finset.card_insert_of_not_mem htX]

/-! ## Lemmas: permutation congruence of the collection -/

/-- Collecting over a permuted level list permutes the collected keys
(the set of eligible keys only depends on which levels are active). -/
theorem collect_topics_perm_levels (syl : Syllabus) (units : List Int) (used : List String)
    {l₁ l₂ : List String} (h : List.Perm l₁ l₂) :
    List.Perm (collect_topics syl units used l₁) (collect_topics syl units used l₂) := by
  rw [collect_topics_eq_spec, collect_topics_eq_spec]
  unfold collectSpec
  refine List.Perm.flatMap_left _ ?_
  intro u _
  by_cases hc : units.contains u.unit_number = true
  · rw [if_pos hc, if_pos hc]
    exact h.flatMap_right _
  · rw [if_neg hc, if_neg hc]

/-- Collecting over concatenated level lists is a permutation of the
two collections in sequence (the per-unit chunks interleave). -/
theorem collect_topics_append_perm (syl : Syllabus) (units : List Int) (used : List String)
    (l₁ l₂ : List String) :
    List.Perm (collect_topics syl units used (l₁ ++ l₂))
      (collect_topics syl units used l₁ ++ collect_topics syl units used l₂) := by
  rw [collect_topics_eq_spec, collect_topics_eq_spec, collect_topics_eq_spec]
  unfold collectSpec
  have hfun : (fun u : SyllabusUnit =>
      if units.contains u.unit_number then
        (l₁ ++ l₂).flatMap (fun level =>
          (dictGet u.topics level).filterMap (fun topic =>
            let key := compositeKey u.unit_number topic level
            if used.contains key then none else some key))
      else []) = fun u : SyllabusUnit =>
      (if units.contains u.unit_number then
        l₁.flatMap (fun level =>
          (dictGet u.topics level).filterMap (fun topic =>
            let key := compositeKey u.unit_number topic level
            if used.contains key then none else some key))
      else []) ++
      (if units.contains u.unit_number then
        l₂.flatMap (fun level =>
          (dictGet u.topics level).filterMap (fun topic =>
            let key := compositeKey u.unit_number topic level
            if used.contains key then none else some key))
      else []) := by
    funext u
    by_cases hc : units.contains u.unit_number = true
    · rw [if_pos hc, if_pos hc, if_pos hc, List.flatMap_append]
    · rw [if_neg hc, if_neg hc, if_neg hc, List.append_nil]
  rw [hfun]
  exact (List.flatMap_append_perm _ _ _).symm

/-- Collecting over no levels yields nothing. -/
theorem collect_topics_nil_levels (syl : Syllabus) (units : List Int) (used : List String) :
    collect_topics syl units used [] = [] := by
  rw [collect_topics_eq_spec]
  unfold collectSpec
  simp

/-- The oracle standing for `list(set(xs))` produces a permutation of
the deduplicated list. -/
theorem perm_of_set_oracle {pySet : List String → List String}
    (hset : ∀ xs, (pySet xs).Nodup ∧ ∀ x, x ∈ pySet xs ↔ x ∈ xs) (l : List String) :
    List.Perm (pySet l) l.dedup := by
  refine List.perm_of_nodup_nodup_toFinset_eq (hset l).1 (List.nodup_dedup l) ?_
  ext x
  simp only [List.mem_toFinset, List.mem_dedup]
  exact (hset l).2 x

/-- The machine's fallback levels agree with those computed from the
canonical primary representative. -/
theorem fallback_primary_eq {pySet : List String → List String}
    (hset : ∀ xs, (pySet xs).Nodup ∧ ∀ x, x ∈ pySet xs ↔ x ∈ xs) (diffs : List String) :
    fallback_blooms (pySet (primaryRaw diffs)) = fallback_blooms (canonPrimary diffs) := by
  rw [fallback_blooms_eq_take, fallback_blooms_eq_take]
  congr 1
  refine minIdx_congr ?_
  intro x
  rw [(hset (primaryRaw diffs)).2 x]
  unfold canonPrimary
  exact (List.mem_dedup).symm

/-- Keys collected against a used set are the unused part of the full
collection. -/
theorem collect_topics_used_toFinset (syl : Syllabus) (units : List Int)
    (used : List String) (levels : List String) :
    (collect_topics syl units used levels).toFinset =
      (collect_topics syl units [] levels).toFinset \ used.toFinset := by
  ext x
  simp only [List.mem_toFinset, Finset.mem_sdiff, mem_collect_topics, List.not_mem_nil,
    not_false_eq_true, true_and]
  tauto

/-- The eligible pool splits into the primary-level keys and the
fallback-level keys. -/
theorem eligiblePool_eq_union (syl : Syllabus) (units : List Int) (diffs : List String) :
    eligiblePool syl units diffs =
      (collect_topics syl units [] (canonPrimary diffs)).toFinset ∪
      (collect_topics syl units [] (fallback_blooms (canonPrimary diffs))).toFinset := by
  unfold eligiblePool eligiblePoolList poolLevels
  rw [List.toFinset_eq_of_perm _ _ (collect_topics_append_perm syl units [] _ _)]
  ext x
  simp [List.mem_toFinset, List.mem_append]

/-- A duplicate-free eligible pool list forces both rounds' collections
to be duplicate-free and mutually disjoint. -/
theorem pool_nodup_split {syl : Syllabus} {units : List Int} {diffs : List String}
    (h : (eligiblePoolList syl units diffs).Nodup) :
    (collect_topics syl units [] (canonPrimary diffs)).Nodup ∧
    (collect_topics syl units [] (fallback_blooms (canonPrimary diffs))).Nodup ∧
    ∀ x ∈ collect_topics syl units [] (canonPrimary diffs),
      x ∉ collect_topics syl units [] (fallback_blooms (canonPrimary diffs)) := by
  have hperm := collect_topics_append_perm syl units [] (canonPrimary diffs)
    (fallback_blooms (canonPrimary diffs))
  have hnd := (hperm.nodup_iff).mp h
  rw [List.nodup_append] at hnd
  exact ⟨hnd.1, hnd.2.1, hnd.2.2⟩

/-! ## Claim theorems -/

/-- Claim C3: for every valid input (counts string parsing to a
positive total, non-empty units within 1..5, non-empty difficulties
within easy/medium/hard), any permutation-returning shuffle and any
set-order oracle, if the eligible pool (initial mapped levels plus all
fallback levels, distinct composite keys) holds at least the requested
total, then the selection returns exactly that many topics. -/
theorem c3_pool_large_returns_exactly_count
    (sh : Nat → List String → List String) (pySet : List String → List String)
    (qc : String) (units : List Int) (diffs : List String) (syl : Syllabus)
    {parts : List Int}
    (Hsh : ∀ i l, List.Perm (sh i l) l)
    (Hset : ∀ xs, (pySet xs).Nodup ∧ ∀ x, x ∈ pySet xs ↔ x ∈ xs)
    (Hparse : pyParseCounts qc = some parts) (Hpos : 0 < parts.sum)
    (Hd : diffs ≠ []) (Hdv : ∀ d ∈ diffs, d ∈ (["easy", "medium", "hard"] : List String))
    (Hu : units ≠ []) (Huv : ∀ u ∈ units, 1 ≤ u ∧ u ≤ 5)
    (Hpool : parts.sum.toNat ≤ (eligiblePool syl units diffs).card) :
    ∃ sel, runSelection sh pySet qc units diffs syl = .ok (parts.sum.toNat, sel) ∧
      (sel.take parts.sum.toNat).length = parts.sum.toNat := by
  have hrun := runSelection_eq_ok sh pySet qc units diffs syl Hparse Hpos Hd Hdv Hu Huv
  refine ⟨_, hrun, ?_⟩
  rw [selLoop_two_rounds]
  set n := parts.sum.toNat with hn
  set P := pySet (primaryRaw diffs) with hP
  set C0 := collect_topics syl units [] P with hC0
  set T0 := sh 0 C0 with hT0
  set S0 := T0.take n with hS0def
  have hPperm : List.Perm P (canonPrimary diffs) := perm_of_set_oracle Hset _
  have hC0perm : List.Perm C0 (collect_topics syl units [] (canonPrimary diffs)) :=
    collect_topics_perm_levels syl units [] hPperm
  have hT0C0 : List.Perm T0 C0 := Hsh 0 C0
  have hfb : fallback_blooms P = fallback_blooms (canonPrimary diffs) :=
    fallback_primary_eq Hset diffs
  have hT0set : T0.toFinset = (collect_topics syl units [] (canonPrimary diffs)).toFinset := by
    rw [List.toFinset_eq_of_perm _ _ hT0C0, List.toFinset_eq_of_perm _ _ hC0perm]
  by_cases hA : n ≤ T0.length
  · have hS0len : S0.length = n := by
      rw [hS0def, List.length_take]
      omega
    rw [if_neg (show ¬((⟨S0, S0⟩ : SelState).selected_topics.length < n) by
      dsimp only
      omega)]
    dsimp only
    rw [List.length_take, hS0len]
    omega
  · push_neg at hA
    have hS0eq : S0 = T0 := by
      rw [hS0def]
      exact List.take_of_length_le (by omega)
    have hS0lt : S0.length < n := by
      rw [hS0eq]
      omega
    rw [if_pos (show (⟨S0, S0⟩ : SelState).selected_topics.length < n from hS0lt)]
    by_cases hfbnil : fallback_blooms P = []
    · exfalso
      have hfbc : fallback_blooms (canonPrimary diffs) = [] := by
        rw [← hfb]
        exact hfbnil
      have hpool := eligiblePool_eq_union syl units diffs
      rw [hfbc, collect_topics_nil_levels] at hpool
      simp only [List.toFinset_nil, Finset.union_empty] at hpool
      have hcard : (eligiblePool syl units diffs).card ≤ T0.length := by
        rw [hpool]
        calc (collect_topics syl units [] (canonPrimary diffs)).toFinset.card
            ≤ (collect_topics syl units [] (canonPrimary diffs)).length :=
              List.toFinset_card_le _
          _ = C0.length := hC0perm.length_eq.symm
          _ = T0.length := hT0C0.length_eq.symm
      omega
    · rw [if_neg hfbnil]
      dsimp only
      rw [List.length_take,
        appendRound_length n _ ⟨S0, S0⟩ (show (⟨S0, S0⟩ : SelState).selected_topics.length ≤ n
          from by dsimp only; omega)]
      dsimp only
      have hND := newDistinct_eq_card
        (sh 1 (collect_topics syl units S0 (fallback_blooms P))) S0
      have hT1set : (sh 1 (collect_topics syl units S0 (fallback_blooms P))).toFinset =
          (collect_topics syl units S0 (fallback_blooms P)).toFinset :=
        List.toFinset_eq_of_perm _ _ (Hsh 1 _)
      have hC1set := collect_topics_used_toFinset syl units S0 (fallback_blooms P)
      have hS0T0 : S0.toFinset = T0.toFinset := by rw [hS0eq]
      have hdiffcount : newDistinct
          (sh 1 (collect_topics syl units S0 (fallback_blooms P))) S0 =
          ((collect_topics syl units [] (fallback_blooms (canonPrimary diffs))).toFinset \
            (collect_topics syl units [] (canonPrimary diffs)).toFinset).card := by
        rw [hND, hT1set, hC1set, hS0T0, hT0set, ← hfb, Finset.sdiff_idem]
      have hcardunion : (eligiblePool syl units diffs).card ≤
          T0.length + newDistinct
            (sh 1 (collect_topics syl units S0 (fallback_blooms P))) S0 := by
        rw [hdiffcount, eligiblePool_eq_union]
        have hsplit := Finset.card_sdiff_add_card
          ((collect_topics syl units [] (fallback_blooms (canonPrimary diffs))).toFinset)
          ((collect_topics syl units [] (canonPrimary diffs)).toFinset)
        have hAle : (collect_topics syl units [] (canonPrimary diffs)).toFinset.card ≤
            T0.length := by
          calc (collect_topics syl units [] (canonPrimary diffs)).toFinset.card
              ≤ (collect_topics syl units [] (canonPrimary diffs)).length :=
                List.toFinset_card_le _
            _ = C0.length := hC0perm.length_eq.symm
            _ = T0.length := hT0C0.length_eq.symm
        rw [Finset.union_comm]
        omega
      have hlenT0 : S0.length = T0.length := by rw [hS0eq]
      omega

/-- Reduction of the formatting wrapper over a successful selection
run. -/
theorem generate_of_runSelection {sh : Nat → List String → List String}
    {pySet : List String → List String} {qc : String} {units : List Int}
    {diffs : List String} {syl : Syllabus} {n : Nat} {sel : List String}
    (h : runSelection sh pySet qc units diffs syl = .ok (n, sel)) :
    generate_random_topics sh pySet qc units diffs syl =
      if sel.isEmpty then .error "No topics available even after fallback"
      else .ok (String.intercalate "\n" (formatLines (sel.take n))) := by
  unfold generate_random_topics
  rw [h]

/-- Claim C2, amended: under a valid input, permutation/set oracles, a
duplicate-free eligible pool list, and a pool strictly smaller than the
requested total, the selection terminates and returns exactly the
topics of the pool (duplicate-free, all of them, untruncated); the
function signals the exhausted-pool failure exactly when the pool is
empty, and otherwise returns the short list without any failure. -/
theorem c2_short_pool_returns_all
    (sh : Nat → List String → List String) (pySet : List String → List String)
    (qc : String) (units : List Int) (diffs : List String) (syl : Syllabus)
    {parts : List Int}
    (Hsh : ∀ i l, List.Perm (sh i l) l)
    (Hset : ∀ xs, (pySet xs).Nodup ∧ ∀ x, x ∈ pySet xs ↔ x ∈ xs)
    (Hparse : pyParseCounts qc = some parts) (Hpos : 0 < parts.sum)
    (Hd : diffs ≠ []) (Hdv : ∀ d ∈ diffs, d ∈ (["easy", "medium", "hard"] : List String))
    (Hu : units ≠ []) (Huv : ∀ u ∈ units, 1 ≤ u ∧ u ≤ 5)
    (Hnodup : (eligiblePoolList syl units diffs).Nodup)
    (Hpool : (eligiblePool syl units diffs).card < parts.sum.toNat) :
    ∃ sel, runSelection sh pySet qc units diffs syl = .ok (parts.sum.toNat, sel) ∧
      sel.Nodup ∧ sel.toFinset = eligiblePool syl units diffs ∧
      sel.length = (eligiblePool syl units diffs).card ∧
      sel.take parts.sum.toNat = sel ∧
      (generate_random_topics sh pySet qc units diffs syl =
          .error "No topics available even after fallback" ↔
        eligiblePool syl units diffs = ∅) ∧
      (eligiblePool syl units diffs ≠ ∅ →
        generate_random_topics sh pySet qc units diffs syl =
          .ok (String.intercalate "\n" (formatLines sel))) := by
  have hrun := runSelection_eq_ok sh pySet qc units diffs syl Hparse Hpos Hd Hdv Hu Huv
  rw [selLoop_two_rounds] at hrun
  set n := parts.sum.toNat with hn
  set P := pySet (primaryRaw diffs) with hP
  set C0 := collect_topics syl units [] P with hC0
  set T0 := sh 0 C0 with hT0
  set S0 := T0.take n with hS0def
  obtain ⟨hndA, hndB, _⟩ := pool_nodup_split Hnodup
  have hPperm : List.Perm P (canonPrimary diffs) := perm_of_set_oracle Hset _
  have hC0perm : List.Perm C0 (collect_topics syl units [] (canonPrimary diffs)) :=
    collect_topics_perm_levels syl units [] hPperm
  have hT0C0 : List.Perm T0 C0 := Hsh 0 C0
  have hT0A : List.Perm T0 (collect_topics syl units [] (canonPrimary diffs)) :=
    hT0C0.trans hC0perm
  have hfb : fallback_blooms P = fallback_blooms (canonPrimary diffs) :=
    fallback_primary_eq Hset diffs
  have hT0nd : T0.Nodup := hT0A.nodup_iff.mpr hndA
  have hT0set : T0.toFinset = (collect_topics syl units [] (canonPrimary diffs)).toFinset :=
    List.toFinset_eq_of_perm _ _ hT0A
  have hpoolsplit := eligiblePool_eq_union syl units diffs
  have hcardA : (collect_topics syl units [] (canonPrimary diffs)).toFinset.card =
      T0.length := by
    rw [← hT0set, List.toFinset_card_of_nodup hT0nd]
  have hT0lt : T0.length < n := by
    have h1 : (collect_topics syl units [] (canonPrimary diffs)).toFinset.card ≤
        (eligiblePool syl units diffs).card := by
      rw [hpoolsplit]
      exact Finset.card_le_card Finset.subset_union_left
    omega
  have hS0eq : S0 = T0 := by
    rw [hS0def]
    exact List.take_of_length_le (by omega)
  have hS0lt : S0.length < n := by
    rw [hS0eq]
    omega
  rw [if_pos (show (⟨S0, S0⟩ : SelState).selected_topics.length < n from hS0lt)] at hrun
  by_cases hfbnil : fallback_blooms P = []
  · -- no fallback levels: the pool is exactly the primary keys
    rw [if_pos hfbnil] at hrun
    dsimp only at hrun
    have hfbc : fallback_blooms (canonPrimary diffs) = [] := by
      rw [← hfb]
      exact hfbnil
    have hpoolA : eligiblePool syl units diffs =
        (collect_topics syl units [] (canonPrimary diffs)).toFinset := by
      rw [hpoolsplit, hfbc, collect_topics_nil_levels]
      simp
    have hselset : S0.toFinset = eligiblePool syl units diffs := by
      rw [hS0eq, hT0set, hpoolA]
    have hselnd : S0.Nodup := by
      rw [hS0eq]
      exact hT0nd
    have hsellen : S0.length = (eligiblePool syl units diffs).card := by
      rw [hpoolA, hcardA, hS0eq]
    refine ⟨S0, hrun, hselnd, hselset, hsellen, ?_, ?_, ?_⟩
    · exact List.take_of_length_le (by omega)
    · rw [generate_of_runSelection hrun]
      constructor
      · intro hgen
        by_cases hempty : S0.isEmpty
        · rw [← hselset, List.toFinset_eq_empty_iff]
          exact List.isEmpty_iff.mp hempty
        · rw [if_neg hempty] at hgen
          exact absurd hgen (by simp)
      · intro hpoolempty
        have hsel : S0 = [] := by
          rw [← List.toFinset_eq_empty_iff, hselset]
          exact hpoolempty
        rw [if_pos (by rw [List.isEmpty_iff]; exact hsel)]
    · intro hne
      rw [generate_of_runSelection hrun]
      have hsel : S0 ≠ [] := by
        intro hc
        apply hne
        rw [← hselset, hc]
        simp
      rw [if_neg (by simpa [List.isEmpty_iff] using hsel)]
      rw [List.take_of_length_le (by omega)]
  · -- one fallback round runs and drains the fallback keys
    rw [if_neg hfbnil] at hrun
    dsimp only at hrun
    have hS0le : S0.length ≤ n := by omega
    have hT1set : (sh 1 (collect_topics syl units S0 (fallback_blooms P))).toFinset =
        (collect_topics syl units [] (fallback_blooms (canonPrimary diffs))).toFinset \
          (collect_topics syl units [] (canonPrimary diffs)).toFinset := by
      rw [List.toFinset_eq_of_perm _ _ (Hsh 1 _), collect_topics_used_toFinset, hfb,
        hS0eq, hT0set]
    have hndEq : newDistinct (sh 1 (collect_topics syl units S0 (fallback_blooms P))) S0 =
        ((collect_topics syl units [] (fallback_blooms (canonPrimary diffs))).toFinset \
          (collect_topics syl units [] (canonPrimary diffs)).toFinset).card := by
      rw [newDistinct_eq_card, hT1set, hS0eq, hT0set, Finset.sdiff_idem]
    have hcardpool : (eligiblePool syl units diffs).card =
        ((collect_topics syl units [] (fallback_blooms (canonPrimary diffs))).toFinset \
          (collect_topics syl units [] (canonPrimary diffs)).toFinset).card +
        (collect_topics syl units [] (canonPrimary diffs)).toFinset.card := by
      rw [hpoolsplit, Finset.union_comm]
      exact (Finset.card_sdiff_add_card _ _).symm
    have hlen : (appendRound n (sh 1 (collect_topics syl units S0 (fallback_blooms P)))
        ⟨S0, S0⟩).selected_topics.length =
        min n (S0.length + newDistinct
          (sh 1 (collect_topics syl units S0 (fallback_blooms P))) S0) := by
      have h := appendRound_length n (sh 1 (collect_topics syl units S0 (fallback_blooms P)))
        ⟨S0, S0⟩ (by dsimp only; omega)
      dsimp only at h
      exact h
    have hS0len : S0.length = (collect_topics syl units [] (canonPrimary diffs)).toFinset.card := by
      rw [hcardA, hS0eq]
    have hlenpool : (appendRound n (sh 1 (collect_topics syl units S0 (fallback_blooms P)))
        ⟨S0, S0⟩).selected_topics.length = (eligiblePool syl units diffs).card := by
      rw [hlen, hndEq, hS0len]
      omega
    have hlenlt : (appendRound n (sh 1 (collect_topics syl units S0 (fallback_blooms P)))
        ⟨S0, S0⟩).selected_topics.length < n := by
      rw [hlenpool]
      exact Hpool
    have hset' := appendRound_sdiff n (sh 1 (collect_topics syl units S0 (fallback_blooms P)))
      ⟨S0, S0⟩ hlenlt
    dsimp only at hset'
    have hselset : (appendRound n (sh 1 (collect_topics syl units S0 (fallback_blooms P)))
        ⟨S0, S0⟩).selected_topics.toFinset = eligiblePool syl units diffs := by
      rw [hset', hT1set, hS0eq, hT0set, Finset.sdiff_idem, Finset.union_sdiff_self_eq_union,
        hpoolsplit]
    have hinv := appendRound_inv n (sh 1 (collect_topics syl units S0 (fallback_blooms P)))
      ⟨S0, S0⟩ (by dsimp only; rw [hS0eq]; exact hT0nd) (fun x => Iff.rfl)
    refine ⟨_, hrun, hinv.1, hselset, hlenpool, List.take_of_length_le (by omega), ?_, ?_⟩
    · rw [generate_of_runSelection hrun]
      constructor
      · intro hgen
        by_cases hempty : (appendRound n (sh 1 (collect_topics syl units S0
            (fallback_blooms P))) ⟨S0, S0⟩).selected_topics.isEmpty
        · rw [← hselset, List.toFinset_eq_empty_iff]
          exact List.isEmpty_iff.mp hempty
        · rw [if_neg hempty] at hgen
          exact absurd hgen (by simp)
      · intro hpoolempty
        have hsel : (appendRound n (sh 1 (collect_topics syl units S0
            (fallback_blooms P))) ⟨S0, S0⟩).selected_topics = [] := by
          rw [← List.toFinset_eq_empty_iff, hselset]
          exact hpoolempty
        rw [if_pos (by rw [List.isEmpty_iff]; exact hsel)]
    · intro hne
      rw [generate_of_runSelection hrun]
      have hsel : (appendRound n (sh 1 (collect_topics syl units S0
          (fallback_blooms P))) ⟨S0, S0⟩).selected_topics ≠ [] := by
        intro hc
        apply hne
        rw [← hselset, hc]
        simp
      rw [if_neg (by simpa [List.isEmpty_iff] using hsel)]
      rw [List.take_of_length_le (by omega)]

/-- Claim C1, amended: under a valid input, permutation/set oracles and
a duplicate-free eligible pool list (no composite key occurs twice in
the store within the eligible levels), the returned topic list never
holds the same composite key twice. -/
theorem c1_no_duplicate_keys_of_pool_nodup
    (sh : Nat → List String → List String) (pySet : List String → List String)
    (qc : String) (units : List Int) (diffs : List String) (syl : Syllabus)
    {parts : List Int}
    (Hsh : ∀ i l, List.Perm (sh i l) l)
    (Hset : ∀ xs, (pySet xs).Nodup ∧ ∀ x, x ∈ pySet xs ↔ x ∈ xs)
    (Hparse : pyParseCounts qc = some parts) (Hpos : 0 < parts.sum)
    (Hd : diffs ≠ []) (Hdv : ∀ d ∈ diffs, d ∈ (["easy", "medium", "hard"] : List String))
    (Hu : units ≠ []) (Huv : ∀ u ∈ units, 1 ≤ u ∧ u ≤ 5)
    (Hnodup : (eligiblePoolList syl units diffs).Nodup) :
    ∃ sel, runSelection sh pySet qc units diffs syl = .ok (parts.sum.toNat, sel) ∧
      (sel.take parts.sum.toNat).Nodup := by
  have hrun := runSelection_eq_ok sh pySet qc units diffs syl Hparse Hpos Hd Hdv Hu Huv
  rw [selLoop_two_rounds] at hrun
  set n := parts.sum.toNat with hn
  set P := pySet (primaryRaw diffs) with hP
  set C0 := collect_topics syl units [] P with hC0
  set T0 := sh 0 C0 with hT0
  set S0 := T0.take n with hS0def
  obtain ⟨hndA, _, _⟩ := pool_nodup_split Hnodup
  have hPperm : List.Perm P (canonPrimary diffs) := perm_of_set_oracle Hset _
  have hT0A : List.Perm T0 (collect_topics syl units [] (canonPrimary diffs)) :=
    (Hsh 0 C0).trans (collect_topics_perm_levels syl units [] hPperm)
  have hT0nd : T0.Nodup := hT0A.nodup_iff.mpr hndA
  have hS0nd : S0.Nodup := by
    rw [hS0def]
    exact List.Nodup.sublist (List.take_sublist n T0) hT0nd
  by_cases hlt : S0.length < n
  · rw [if_pos (show (⟨S0, S0⟩ : SelState).selected_topics.length < n from hlt)] at hrun
    by_cases hfbnil : fallback_blooms P = []
    · rw [if_pos hfbnil] at hrun
      dsimp only at hrun
      exact ⟨S0, hrun, List.Nodup.sublist (List.take_sublist n S0) hS0nd⟩
    · rw [if_neg hfbnil] at hrun
      dsimp only at hrun
      have hinv := appendRound_inv n (sh 1 (collect_topics syl units S0 (fallback_blooms P)))
        ⟨S0, S0⟩ hS0nd (fun _ => Iff.rfl)
      exact ⟨_, hrun, List.Nodup.sublist (List.take_sublist n _) hinv.1⟩
  · rw [if_neg (show ¬((⟨S0, S0⟩ : SelState).selected_topics.length < n) from hlt)] at hrun
    dsimp only at hrun
    exact ⟨S0, hrun, List.Nodup.sublist (List.take_sublist n S0) hS0nd⟩

/-- Counterexample to claim C1 as stated: a Topic Store listing the
same title twice under one level makes the very first round select the
same composite key twice (the first round, unlike the fallback rounds,
never re-checks the used set while extending). -/
theorem c1_duplicate_key_counterexample :
    runSelection (fun _ l => l) (fun l => l.dedup) "2" [1] ["easy"]
        ⟨[⟨1, [("Remembering", ["A", "A"])]⟩]⟩ =
      .ok (2, ["Unit 1 - A (Remembering)", "Unit 1 - A (Remembering)"]) ∧
    generate_random_topics (fun _ l => l) (fun l => l.dedup) "2" [1] ["easy"]
        ⟨[⟨1, [("Remembering", ["A", "A"])]⟩]⟩ =
      .ok "Selected Topics:\n1. Unit 1 - A (Remembering)\n2. Unit 1 - A (Remembering)" ∧
    ¬ (["Unit 1 - A (Remembering)", "Unit 1 - A (Remembering)"] : List String).Nodup :=
  ⟨rfl, rfl, by decide⟩

/-- Counterexample to claim C2 as stated: with one eligible topic and a
request for two, the function returns the single topic with a success
value; no exhausted-pool failure is signalled on a short (non-empty)
result. -/
theorem c2_short_pool_no_failure_counterexample :
    runSelection (fun _ l => l) (fun l => l.dedup) "2" [1] ["easy"]
        ⟨[⟨1, [("Remembering", ["A"])]⟩]⟩ = .ok (2, ["Unit 1 - A (Remembering)"]) ∧
    generate_random_topics (fun _ l => l) (fun l => l.dedup) "2" [1] ["easy"]
        ⟨[⟨1, [("Remembering", ["A"])]⟩]⟩ =
      .ok "Selected Topics:\n1. Unit 1 - A (Remembering)" ∧
    (eligiblePool ⟨[⟨1, [("Remembering", ["A"])]⟩]⟩ [1] ["easy"]).card = 1 :=
  ⟨rfl, rfl, rfl⟩

/-- Claim C4: for a non-empty active level set drawn from the taxonomy,
the fallback set holds exactly the levels ranking strictly below every
active level (equivalently, strictly below the lowest-ranked one) — in
particular never a level above the highest active level. -/
theorem c4_fallback_strictly_below_min (cur : List String) (hne : cur ≠ [])
    (hsub : ∀ b ∈ cur, b ∈ get_blooms_hierarchy) (l : String) :
    l ∈ fallback_blooms cur ↔
      (l ∈ get_blooms_hierarchy ∧ ∀ b ∈ cur,
        List.indexOf l get_blooms_hierarchy < List.indexOf b get_blooms_hierarchy) := by
  rw [fallback_blooms_eq_take, mem_take_iff_indexOf_lt blooms_hierarchy_nodup]
  have hfilter : cur.filter (fun b => get_blooms_hierarchy.contains b) = cur :=
    List.filter_eq_self.mpr (fun b hb => by simpa using hsub b hb)
  obtain ⟨m, hm⟩ : ∃ m, ((cur.filter (fun b => get_blooms_hierarchy.contains b)).map
      (fun b => get_blooms_hierarchy.indexOf b)).min? = some m := by
    rcases hx : ((cur.filter (fun b => get_blooms_hierarchy.contains b)).map
        (fun b => get_blooms_hierarchy.indexOf b)).min? with _ | m
    · rw [List.min?_eq_none_iff, List.map_eq_nil_iff, hfilter] at hx
      exact absurd hx hne
    · exact ⟨m, rfl⟩
  have hminIdx : minIdx cur = m := by
    unfold minIdx
    rw [hm]
  rw [hfilter] at hm
  have hchar := nat_min?_eq_some_iff.mp hm
  constructor
  · rintro ⟨hl, hlt⟩
    rw [hminIdx] at hlt
    refine ⟨hl, fun b hb => ?_⟩
    have hble : m ≤ List.indexOf b get_blooms_hierarchy :=
      hchar.2 _ (List.mem_map_of_mem _ hb)
    omega
  · rintro ⟨hl, hall⟩
    refine ⟨hl, ?_⟩
    rw [hminIdx]
    obtain ⟨b, hb, hbm⟩ := List.mem_map.mp hchar.1
    have := hall b hb
    omega

/-- Witness for claim C4 at a concrete active level set. -/
theorem c4_fallback_strictly_below_min_witness :
    (["Applying", "Creating"] : List String) ≠ [] ∧
    (∀ b ∈ (["Applying", "Creating"] : List String), b ∈ get_blooms_hierarchy) ∧
    ("Remembering" ∈ fallback_blooms ["Applying", "Creating"] ↔
      ("Remembering" ∈ get_blooms_hierarchy ∧ ∀ b ∈ (["Applying", "Creating"] : List String),
        List.indexOf "Remembering" get_blooms_hierarchy <
          List.indexOf b get_blooms_hierarchy)) :=
  ⟨by decide, by decide,
    c4_fallback_strictly_below_min ["Applying", "Creating"] (by decide) (by decide)
      "Remembering"⟩

/-- Claim C5: each productive fallback round strictly decreases the
minimum taxonomy index of the active levels, and the loop stabilises
within `minIdx + 1` rounds of fuel — in particular the pipeline's fixed
fuel of 6 always suffices, so the selection terminates on every
input. -/
theorem c5_fallback_cascade_terminates :
    (∀ p : List String, fallback_blooms p ≠ [] → minIdx (fallback_blooms p) < minIdx p) ∧
    (∀ (sh : Nat → List String → List String) (syl : Syllabus) (units : List Int)
        (n fuel r : Nat) (p : List String) (st : SelState), minIdx p < fuel →
      selLoop sh syl units n fuel r p st = selLoop sh syl units n (minIdx p + 1) r p st) ∧
    (∀ (sh : Nat → List String → List String) (syl : Syllabus) (units : List Int)
        (n r : Nat) (p : List String) (st : SelState),
      selLoop sh syl units n 6 r p st = selLoop sh syl units n (minIdx p + 1) r p st) :=
  ⟨fun _ h => minIdx_fallback_lt h,
    fun sh syl units n fuel r p st h =>
      selLoop_fuel_congr sh syl units n fuel (minIdx p + 1) r p st h (Nat.lt_succ_self _),
    fun sh syl units n r p st =>
      selLoop_fuel_congr sh syl units n 6 (minIdx p + 1) r p st
        (minIdx_lt_six p) (Nat.lt_succ_self _)⟩

/-- Witness for claim C5 at a concrete active level set, fuel and
state. -/
theorem c5_fallback_cascade_terminates_witness :
    (fallback_blooms ["Applying"] ≠ [] ∧
      minIdx (fallback_blooms ["Applying"]) < minIdx ["Applying"]) ∧
    (minIdx ["Applying"] < 3 ∧
      selLoop (fun _ l => l) ⟨[]⟩ [1] 2 3 1 ["Applying"] ⟨[], []⟩ =
        selLoop (fun _ l => l) ⟨[]⟩ [1] 2 (minIdx ["Applying"] + 1) 1 ["Applying"] ⟨[], []⟩) ∧
    selLoop (fun _ l => l) ⟨[]⟩ [1] 2 6 1 ["Applying"] ⟨[], []⟩ =
      selLoop (fun _ l => l) ⟨[]⟩ [1] 2 (minIdx ["Applying"] + 1) 1 ["Applying"] ⟨[], []⟩ :=
  ⟨⟨by decide, c5_fallback_cascade_terminates.1 ["Applying"] (by decide)⟩,
    ⟨by decide, c5_fallback_cascade_terminates.2.1 (fun _ l => l) ⟨[]⟩ [1] 2 3 1
      ["Applying"] ⟨[], []⟩ (by decide)⟩,
    c5_fallback_cascade_terminates.2.2 (fun _ l => l) ⟨[]⟩ [1] 2 1 ["Applying"] ⟨[], []⟩⟩

/-- Flat maps with elementwise equal-length images have equal length. -/
theorem flatMap_congr_length {α β γ : Type} (f : α → List β) (g : α → List γ)
    (h : ∀ a, (f a).length = (g a).length) :
    ∀ l : List α, (l.flatMap f).length = (l.flatMap g).length := by
  intro l
  induction l with
  | nil => rfl
  | cons a l ih => simp [List.flatMap_cons, h a, ih]

/-- Filter-maps keeping the same elements (with different images) have
equal length. -/
theorem filterMap_ite_length {α β γ : Type} (p : α → Bool) (f : α → β) (g : α → γ) :
    ∀ ts : List α,
      (ts.filterMap (fun t => if p t then none else some (f t))).length =
      (ts.filterMap (fun t => if p t then none else some (g t))).length := by
  intro ts
  induction ts with
  | nil => rfl
  | cons t ts ih =>
    by_cases hp : p t = true
    · simp [List.filterMap_cons, hp, ih]
    · simp [List.filterMap_cons, hp, ih]

/-- The unit trace has one entry per collected key: it records the unit
of each key the collection emits, in emission order. -/
theorem collectUnitsTrace_length (syl : Syllabus) (units : List Int) (used : List String)
    (levels : List String) :
    (collectUnitsTrace syl units used levels).length =
      (collect_topics syl units used levels).length := by
  rw [collect_topics_eq_spec]
  unfold collectUnitsTrace collectSpec
  refine flatMap_congr_length _ _ (fun u => ?_) syl.units
  by_cases hc : units.contains u.unit_number = true
  · rw [if_pos hc, if_pos hc]
    refine flatMap_congr_length _ _ (fun level => ?_) levels
    exact filterMap_ite_length
      (fun topic => used.contains (compositeKey u.unit_number topic level))
      (fun _ => u.unit_number)
      (fun topic => compositeKey u.unit_number topic level)
      (dictGet u.topics level)
  · rw [if_neg hc, if_neg hc]
    rfl

/-- Claim C6, amended: topic collection is deterministic and iterates
in the Topic Store's own unit-list order (not in ascending unit-number
order) and, within a unit, in the order of the level list it is handed
(taxonomy order only for fallback rounds); the canonical flat-map form
fixes the emitted key sequence, and the unit trace tracks it
one-for-one. -/
theorem c6_collect_deterministic_store_order (syl : Syllabus) (units : List Int)
    (used : List String) (levels : List String) :
    collect_topics syl units used levels = collectSpec syl units used levels ∧
    (collectUnitsTrace syl units used levels).length =
      (collect_topics syl units used levels).length :=
  ⟨collect_topics_eq_spec syl units used levels,
    collectUnitsTrace_length syl units used levels⟩

/-- Counterexample to claim C6 as stated: a store listing unit 2 before
unit 1 is iterated in that order, so the emitted keys are not in
ascending unit-number order. -/
theorem c6_unit_order_counterexample :
    collect_topics ⟨[⟨2, [("Remembering", ["B"])]⟩, ⟨1, [("Remembering", ["A"])]⟩]⟩
        [1, 2] [] ["Remembering"] =
      ["Unit 2 - B (Remembering)", "Unit 1 - A (Remembering)"] ∧
    collectUnitsTrace ⟨[⟨2, [("Remembering", ["B"])]⟩, ⟨1, [("Remembering", ["A"])]⟩]⟩
        [1, 2] [] ["Remembering"] = [2, 1] ∧
    ¬ List.Sorted (· ≤ ·)
      (collectUnitsTrace ⟨[⟨2, [("Remembering", ["B"])]⟩, ⟨1, [("Remembering", ["A"])]⟩]⟩
        [1, 2] [] ["Remembering"]) :=
  ⟨rfl, rfl, by decide⟩

/-- Claim C7: once the selection pipeline has produced its key list,
the wrapper fails with the exhausted-pool error exactly on an empty
list, and otherwise renders the (possibly short) list with the header
line followed by the keys numbered consecutively from 1. -/
theorem c7_zero_selected_fails_else_numbered
    (sh : Nat → List String → List String) (pySet : List String → List String)
    (qc : String) (units : List Int) (diffs : List String) (syl : Syllabus)
    (n : Nat) (sel : List String)
    (h : runSelection sh pySet qc units diffs syl = .ok (n, sel)) :
    (sel = [] → generate_random_topics sh pySet qc units diffs syl =
      .error "No topics available even after fallback") ∧
    (sel ≠ [] → generate_random_topics sh pySet qc units diffs syl =
      .ok (String.intercalate "\n" (formatLines (sel.take n)))) ∧
    (formatLines (sel.take n)).length = (sel.take n).length + 1 ∧
    (formatLines (sel.take n))[0]? = some "Selected Topics:" ∧
    (∀ i, i < (sel.take n).length →
      (formatLines (sel.take n))[i + 1]? =
        some (toString (i + 1) ++ ". " ++ (sel.take n).getD i "")) := by
  refine ⟨?_, ?_, ?_, by unfold formatLines; rw [List.getElem?_cons_zero], ?_⟩
  · intro hsel
    rw [generate_of_runSelection h, if_pos (by rw [List.isEmpty_iff]; exact hsel)]
  · intro hsel
    rw [generate_of_runSelection h, if_neg (by simpa [List.isEmpty_iff] using hsel)]
  · unfold formatLines
    simp
  · intro i hi
    unfold formatLines
    rw [List.getElem?_cons_succ, List.getElem?_map, List.getElem?_enum]
    rw [List.getElem?_eq_getElem hi]
    simp [List.getElem?_eq_getElem hi]

/-- Witness for claim C7 at a concrete successful run. -/
theorem c7_zero_selected_fails_else_numbered_witness :
    runSelection (fun _ l => l) (fun l => l.dedup) "1" [1] ["easy"]
        ⟨[⟨1, [("Remembering", ["A"])]⟩]⟩ = .ok (1, ["Unit 1 - A (Remembering)"]) ∧
    generate_random_topics (fun _ l => l) (fun l => l.dedup) "1" [1] ["easy"]
        ⟨[⟨1, [("Remembering", ["A"])]⟩]⟩ =
      .ok (String.intercalate "\n"
        (formatLines ((["Unit 1 - A (Remembering)"] : List String).take 1))) ∧
    (∀ i, i < ((["Unit 1 - A (Remembering)"] : List String).take 1).length →
      (formatLines ((["Unit 1 - A (Remembering)"] : List String).take 1))[i + 1]? =
        some (toString (i + 1) ++ ". " ++
          ((["Unit 1 - A (Remembering)"] : List String).take 1).getD i "")) :=
  ⟨rfl,
    (c7_zero_selected_fails_else_numbered (fun _ l => l) (fun l => l.dedup) "1" [1]
      ["easy"] ⟨[⟨1, [("Remembering", ["A"])]⟩]⟩ 1 ["Unit 1 - A (Remembering)"]
      rfl).2.1 (by decide),
    (c7_zero_selected_fails_else_numbered (fun _ l => l) (fun l => l.dedup) "1" [1]
      ["easy"] ⟨[⟨1, [("Remembering", ["A"])]⟩]⟩ 1 ["Unit 1 - A (Remembering)"]
      rfl).2.2.2.2⟩

/-- Claim C8, amended: the classifier's post-processing performs no
count validation at all: whenever the counts string parses, the decoded
assignment of the external service is returned unchanged, whatever its
per-format counts. -/
theorem c8_returns_llm_assignment_unchanged (llm : List Assignment) (qc : String)
    {counts : List Int} (h : pyParseCounts qc = some counts) :
    classify_topics_to_question_types (.ok llm) qc = .ok llm := by
  unfold classify_topics_to_question_types
  rw [h]

/-- Witness for the amended claim C8. -/
theorem c8_returns_llm_assignment_unchanged_witness :
    pyParseCounts "10,6,4" = some [10, 6, 4] ∧
    classify_topics_to_question_types (.ok [⟨"T", "MCQ"⟩]) "10,6,4" = .ok [⟨"T", "MCQ"⟩] :=
  ⟨rfl, c8_returns_llm_assignment_unchanged [⟨"T", "MCQ"⟩] "10,6,4" rfl⟩

/-- Counterexample to claim C8 as stated: for the request 10,6,4 (ten
MCQs requested) an assignment with zero MCQs entries is returned as a
success, not rejected with a classification-mismatch failure. -/
theorem c8_no_count_validation_counterexample :
    classify_topics_to_question_types (.ok [⟨"Topic", "MCQ"⟩]) "10,6,4" =
      .ok [⟨"Topic", "MCQ"⟩] ∧
    requestedCount [10, 6, 4] "MCQs" = some 10 ∧
    countType [⟨"Topic", "MCQ"⟩] "MCQs" = 0 ∧
    countType [⟨"Topic", "MCQ"⟩] "MCQs" ≠ 10 :=
  ⟨rfl, rfl, rfl, by decide⟩

/-- The per-topic loop is an elementwise map: each output entry depends
only on its own input entry. -/
theorem questionsLoop_eq_map (retrieveDocs : String → Except String String)
    (generateQ : String → String → Except String String) :
    ∀ ts : List TopicEntry,
      questionsLoop retrieveDocs generateQ ts = ts.map (processEntry retrieveDocs generateQ) := by
  intro ts
  induction ts with
  | nil => rfl
  | cons t ts ih => simp [questionsLoop, ih]

/-- Claim C9: in the question-generation batch, a retrieval or
generation failure for one topic never aborts the batch: the output has
exactly one entry per input entry, each output entry is a function of
its own input entry alone, and a retrieval failure yields the inline
error placeholder for that topic. -/
theorem c9_per_topic_failures_isolated
    (retrieveDocs : String → Except String String)
    (generateQ : String → String → Except String String)
    (topics : List TopicEntry) (h : topics ≠ []) :
    ∃ out, generate_questions_from_topics retrieveDocs generateQ topics = .ok out ∧
      out.length = topics.length ∧
      (∀ i, i < topics.length →
        out[i]? = some (processEntry retrieveDocs generateQ (topics.getD i ⟨none, none⟩))) ∧
      (∀ (entry : TopicEntry) (t q e : String), entry.topic = some t → t.isEmpty = false →
        entry.question_type = some q → q.isEmpty = false →
        retrieveDocs (t ++ " question_type: " ++ q) = .error e →
        processEntry retrieveDocs generateQ entry =
          "Error generating question for " ++ t ++ ": " ++ e) := by
  refine ⟨questionsLoop retrieveDocs generateQ topics, ?_, ?_, ?_, ?_⟩
  · unfold generate_questions_from_topics
    rw [if_neg (by simpa [List.isEmpty_iff] using h)]
  · rw [questionsLoop_eq_map]
    exact List.length_map _ _
  · intro i hi
    rw [questionsLoop_eq_map, List.getElem?_map, List.getElem?_eq_getElem hi]
    simp [List.getElem?_eq_getElem hi]
  · intro entry t q e ht hte hq hqe hr
    unfold processEntry
    rw [ht, hq]
    simp [pyFalsy, pyShow, hte, hqe, hr]

/-- Witness for claim C9: a one-topic batch whose retrieval collaborator
is down still completes with the placeholder entry. -/
theorem c9_per_topic_failures_isolated_witness :
    ([⟨some "T", some "MCQ"⟩] : List TopicEntry) ≠ [] ∧
    (∃ out, generate_questions_from_topics (fun _ => .error "down") (fun _ _ => .ok "Q")
        [⟨some "T", some "MCQ"⟩] = .ok out ∧
      out.length = ([⟨some "T", some "MCQ"⟩] : List TopicEntry).length ∧
      (∀ i, i < ([⟨some "T", some "MCQ"⟩] : List TopicEntry).length →
        out[i]? = some (processEntry (fun _ => .error "down") (fun _ _ => .ok "Q")
          (([⟨some "T", some "MCQ"⟩] : List TopicEntry).getD i ⟨none, none⟩))) ∧
      (∀ (entry : TopicEntry) (t q e : String), entry.topic = some t → t.isEmpty = false →
        entry.question_type = some q → q.isEmpty = false →
        (fun _ => (.error "down" : Except String String)) (t ++ " question_type: " ++ q) =
          .error e →
        processEntry (fun _ => .error "down") (fun _ _ => .ok "Q") entry =
          "Error generating question for " ++ t ++ ": " ++ e)) :=
  ⟨by decide,
    c9_per_topic_failures_isolated (fun _ => .error "down") (fun _ _ => .ok "Q")
      [⟨some "T", some "MCQ"⟩] (by decide)⟩

/-- Reading the unit list leaves the store untouched, by definition of
the read. -/
theorem collect_topicsSt_eq (syl : Syllabus) (units : List Int) (used : List String)
    (levels : List String) :
    collect_topicsSt syl units used levels = (collect_topics syl units used levels, syl) :=
  rfl

/-- The store-threaded loop returns the store it was given and computes
the same state as the plain loop. -/
theorem selLoopSt_eq (sh : Nat → List String → List String) (units : List Int) (n : Nat) :
    ∀ (fuel r : Nat) (p : List String) (st : SelState) (syl : Syllabus),
      selLoopSt sh units n fuel r p st syl = (selLoop sh syl units n fuel r p st, syl) := by
  intro fuel
  induction fuel with
  | zero =>
    intro r p st syl
    rfl
  | succ f ih =>
    intro r p st syl
    simp only [selLoopSt, selLoop]
    by_cases h1 : st.selected_topics.length < n
    · rw [if_pos h1, if_pos h1]
      by_cases h2 : (fallback_blooms p).isEmpty
      · rw [if_pos h2, if_pos h2]
      · rw [if_neg h2, if_neg h2, collect_topicsSt_eq]
        exact ih _ _ _ _
    · rw [if_neg h1, if_neg h1]

/-- Claim C10: the selection pipeline never mutates the Topic Store it
is handed: threading the store through every access returns it
unchanged alongside the very result of the plain pipeline (selection
state lives only in the run-local used set and selected list). -/
theorem c10_store_never_mutated (sh : Nat → List String → List String)
    (pySet : List String → List String) (qc : String) (units : List Int)
    (diffs : List String) (syl : Syllabus) :
    runSelectionSt sh pySet qc units diffs syl =
      (runSelection sh pySet qc units diffs syl, syl) := by
  unfold runSelectionSt runSelection
  rcases pyParseCounts qc with _ | parts
  · rfl
  · dsimp only
    by_cases h1 : parts.sum ≤ 0
    · rw [if_pos h1, if_pos h1]
    · rw [if_neg h1, if_neg h1]
      by_cases h2 : (diffs.isEmpty
          || !(diffs.all fun d => ["easy", "medium", "hard"].contains d)) = true
      · rw [if_pos h2, if_pos h2]
      · rw [if_neg h2, if_neg h2]
        by_cases h3 : (units.isEmpty || !(units.all fun u => decide (1 ≤ u ∧ u ≤ 5))) = true
        · rw [if_pos h3, if_pos h3]
        · rw [if_neg h3, if_neg h3]
          rcases map_difficulty_to_blooms pySet diffs with e | prim
          · rfl
          · dsimp only
            rw [collect_topicsSt_eq, selLoopSt_eq]

/-- Witness for the amended claim C1 at a concrete store and request. -/
theorem c1_no_duplicate_keys_of_pool_nodup_witness :
    pyParseCounts "2" = some [2] ∧
    0 < ([2] : List Int).sum ∧
    (eligiblePoolList ⟨[⟨1, [("Remembering", ["A", "B"])]⟩]⟩ [1] ["easy"]).Nodup ∧
    (∃ sel, runSelection (fun _ l => l) List.dedup "2" [1] ["easy"]
        ⟨[⟨1, [("Remembering", ["A", "B"])]⟩]⟩ = .ok (([2] : List Int).sum.toNat, sel) ∧
      (sel.take ([2] : List Int).sum.toNat).Nodup) :=
  ⟨rfl, by decide, by decide,
    c1_no_duplicate_keys_of_pool_nodup (fun _ l => l) List.dedup "2" [1] ["easy"]
      ⟨[⟨1, [("Remembering", ["A", "B"])]⟩]⟩
      (fun _ _ => List.Perm.refl _)
      (fun xs => ⟨List.nodup_dedup xs, fun _ => List.mem_dedup⟩)
      rfl (by decide) (by decide) (by decide) (by decide) (by decide) (by decide)⟩

/-- Witness for the amended claim C2 at a concrete store with a pool of
one topic and a request for two. -/
theorem c2_short_pool_returns_all_witness :
    pyParseCounts "2" = some [2] ∧
    (eligiblePoolList ⟨[⟨1, [("Remembering", ["A"])]⟩]⟩ [1] ["easy"]).Nodup ∧
    (eligiblePool ⟨[⟨1, [("Remembering", ["A"])]⟩]⟩ [1] ["easy"]).card <
      ([2] : List Int).sum.toNat ∧
    (∃ sel, runSelection (fun _ l => l) List.dedup "2" [1] ["easy"]
        ⟨[⟨1, [("Remembering", ["A"])]⟩]⟩ = .ok (([2] : List Int).sum.toNat, sel) ∧
      sel.Nodup ∧
      sel.toFinset = eligiblePool ⟨[⟨1, [("Remembering", ["A"])]⟩]⟩ [1] ["easy"] ∧
      sel.length = (eligiblePool ⟨[⟨1, [("Remembering", ["A"])]⟩]⟩ [1] ["easy"]).card ∧
      sel.take ([2] : List Int).sum.toNat = sel ∧
      (generate_random_topics (fun _ l => l) List.dedup "2" [1] ["easy"]
          ⟨[⟨1, [("Remembering", ["A"])]⟩]⟩ =
          .error "No topics available even after fallback" ↔
        eligiblePool ⟨[⟨1, [("Remembering", ["A"])]⟩]⟩ [1] ["easy"] = ∅) ∧
      (eligiblePool ⟨[⟨1, [("Remembering", ["A"])]⟩]⟩ [1] ["easy"] ≠ ∅ →
        generate_random_topics (fun _ l => l) List.dedup "2" [1] ["easy"]
          ⟨[⟨1, [("Remembering", ["A"])]⟩]⟩ =
          .ok (String.intercalate "\n" (formatLines sel)))) :=
  ⟨rfl, by decide, by decide,
    c2_short_pool_returns_all (fun _ l => l) List.dedup "2" [1] ["easy"]
      ⟨[⟨1, [("Remembering", ["A"])]⟩]⟩
      (fun _ _ => List.Perm.refl _)
      (fun xs => ⟨List.nodup_dedup xs, fun _ => List.mem_dedup⟩)
      rfl (by decide) (by decide) (by decide) (by decide) (by decide) (by decide)
      (by decide)⟩

/-- Witness for claim C3 at a concrete store with two eligible topics
and a request for two. -/
theorem c3_pool_large_returns_exactly_count_witness :
    pyParseCounts "2" = some [2] ∧
    0 < ([2] : List Int).sum ∧
    ([2] : List Int).sum.toNat ≤
      (eligiblePool ⟨[⟨1, [("Remembering", ["A", "B"])]⟩]⟩ [1] ["easy"]).card ∧
    (∃ sel, runSelection (fun _ l => l) List.dedup "2" [1] ["easy"]
        ⟨[⟨1, [("Remembering", ["A", "B"])]⟩]⟩ = .ok (([2] : List Int).sum.toNat, sel) ∧
      (sel.take ([2] : List Int).sum.toNat).length = ([2] : List Int).sum.toNat) :=
  ⟨rfl, by decide, by decide,
    c3_pool_large_returns_exactly_count (fun _ l => l) List.dedup "2" [1] ["easy"]
      ⟨[⟨1, [("Remembering", ["A", "B"])]⟩]⟩
      (fun _ _ => List.Perm.refl _)
      (fun xs => ⟨List.nodup_dedup xs, fun _ => List.mem_dedup⟩)
      rfl (by decide) (by decide) (by decide) (by decide) (by decide) (by decide)⟩
